import Mathlib

/-!
# Proscenium: build request translation and environment definitions

A shallow embedding of `internal/builder/build.go`.  The Go function `Build`
reads and updates one package-level variable, `envVarMap`; here that variable
is threaded through explicitly.  The collaborators that live outside the file
(the import-map parser, `encoding/json`, the URL recognisers of `utils`, the
bundling engine and `path.Join`) are fields of the structure `World`.

Go strings are modelled by `String`; the separators and suffixes used by the
code (`;`, `.map`) are ASCII, so splitting and suffix tests on characters agree
with the byte-wise Go operations.
-/

namespace Proscenium

/-! ## Go strings -/

/-- Go `strings.Split(s, sep)` for a one-character separator. -/
def stringsSplit (s : String) (sep : Char) : List String :=
  (s.data.splitOn sep).map String.mk

/-- Go `strings.HasSuffix`. -/
def stringsHasSuffix (s suffix : String) : Bool :=
  suffix.data.isSuffixOf s.data

/-- Go `strings.TrimSuffix`: removes one trailing copy of `suffix`, if present. -/
def stringsTrimSuffix (s suffix : String) : String :=
  if stringsHasSuffix s suffix then
    String.mk (s.data.take (s.data.length - suffix.data.length))
  else s

/-- Go `fmt.Sprintf("'%s'", v)`. -/
def sprintfQuoted (v : String) : String := "'" ++ v ++ "'"

/-! ## Go maps from string to string -/

/-- A Go `map[string]string`, kept as an association list. -/
abbrev GoMap := List (String × String)

/-- Lookup with presence information: `v, ok := m[k]`. -/
def mapGet (m : GoMap) (k : String) : Option String := List.lookup k m

/-- Indexing expression `m[k]`: the zero value `""` when the key is absent. -/
def mapIndex (m : GoMap) (k : String) : String := (mapGet m k).getD ""

/-- Assignment `m[k] = v`. -/
def mapSet : GoMap → String → String → GoMap
  | [], k, v => [(k, v)]
  | (k', v') :: m, k, v => if k' = k then (k, v) :: m else (k', v') :: mapSet m k v

/-- Go `len(m)`. -/
def mapLen (m : GoMap) : Nat := m.length

/-! ## Environment -/

/-- Modelled from the spec: package `types` is not among the sources.  The spec
identifies an environment with its name ("test", "production"), which is also
what `types.Env.String()` is used for in `Build`. -/
structure Environment where
  name : String
deriving DecidableEq, Repr

/-- Modelled from the spec: the environment named "test". -/
def TestEnv : Environment := ⟨"test"⟩

/-- Modelled from the spec: the environment named "production". -/
def ProdEnv : Environment := ⟨"production"⟩

/-! ## Engine interface -/

inductive LogLevel where
  | LogLevelSilent | LogLevelDebug
deriving DecidableEq, Repr

inductive SourceMap where
  | SourceMapNone | SourceMapLinked | SourceMapExternal
deriving DecidableEq, Repr

inductive Plugin where
  | I18n
  | Rjs (baseUrl : String)
  | Bundler
  | Svg
  | Url
  | Css
deriving DecidableEq, Repr

/-- The fields of `esbuild.Message` that `Build` fills in. -/
structure Message where
  Text : String
  Detail : String
deriving DecidableEq, Repr

structure OutputFile where
  Path : String
  Contents : String
deriving DecidableEq, Repr

structure BuildResult where
  Errors : List Message := []
  Warnings : List Message := []
  OutputFiles : List OutputFile := []
  Metafile : String := ""
deriving DecidableEq, Repr

/-- The engine configuration (`esbuild.BuildOptions`) assembled by `Build`. -/
structure EsbuildOptions where
  EntryPoints : List String
  Splitting : Bool
  AbsWorkingDir : String
  LogLevel : LogLevel
  LogLimit : Nat
  Outdir : String
  Outbase : String
  ChunkNames : String
  Format : String
  JSX : String
  JSXDev : Bool
  MinifyWhitespace : Bool
  MinifyIdentifiers : Bool
  MinifySyntax : Bool
  Bundle : Bool
  External : List String
  Conditions : List String
  Write : Bool
  Sourcemap : SourceMap
  LegalComments : String
  Metafile : Bool
  Target : String
  Supported : List (String × Bool)
  MainFields : List String
  Plugins : List Plugin
  Define : GoMap
  EntryNames : String
deriving DecidableEq, Repr

/-- The collaborators of `Build` that are defined outside `build.go`. -/
structure World where
  /-- The package variable `types.Env`. -/
  Env : Environment
  /-- The call `importmap.Parse(bytes, path, root)`: `none` for a nil error, else the message. -/
  importmapParse : List Nat → String → String → Option String
  /-- The call `json.Unmarshal` into a `map[string]string`. -/
  jsonUnmarshal : String → Except String GoMap
  /-- The recogniser `utils.IsUrl`. -/
  IsUrl : String → Bool
  /-- The recogniser `utils.IsEncodedUrl`. -/
  IsEncodedUrl : String → Bool
  /-- The engine, `esbuild.Build`. -/
  esbuildBuild : EsbuildOptions → BuildResult
  /-- Go `path.Join` of two elements. -/
  pathJoin : String → String → String

/-! ## The builder -/

structure BuildOptions where
  Path : String
  Root : String
  BaseUrl : String
  ImportMapPath : String
  EnvVars : String
  ImportMap : List Nat
  Debug : Bool
  Metafile : Bool
deriving DecidableEq, Repr

/-- The tail of `buildEnvVars`, after the branch on the blob: the mirror key and
the `undefined` sentinel are written and the map is returned. -/
def buildEnvVarsFinish (m : GoMap) : Except String GoMap × GoMap :=
  let m1 := mapSet m "process.env.NODE_ENV" (mapIndex m "proscenium.env.RAILS_ENV")
  let m2 := mapSet m1 "proscenium.env" "undefined"
  (.ok m2, m2)

/-- The body of the loop `for key, value := range varsJson`. -/
def envVarsLoopStep (m : GoMap) (kv : String × String) : GoMap :=
  if kv.1 ≠ "" ∨ kv.2 ≠ "" then
    mapSet m ("proscenium.env." ++ kv.1) (sprintfQuoted kv.2)
  else m

/-- The function `buildEnvVars`.  The first argument after the world is the
package variable `envVarMap` before the call; the second component of the
result is `envVarMap` after it.  The first component is the returned pair
`(map, error)`. -/
def buildEnvVars (w : World) (envVarMap : GoMap) (envVarsS : String) :
    Except String GoMap × GoMap :=
  if w.Env ≠ TestEnv ∧ mapLen envVarMap > 0 then
    (.ok envVarMap, envVarMap)
  else if envVarsS ≠ "" then
    match w.jsonUnmarshal envVarsS with
    | .error err => (.error err, envVarMap)
    | .ok varsJson => buildEnvVarsFinish (varsJson.foldl envVarsLoopStep envVarMap)
  else
    let env := sprintfQuoted w.Env.name
    buildEnvVarsFinish
      (mapSet (mapSet envVarMap "proscenium.env.RAILS_ENV" env) "proscenium.env.NODE_ENV" env)

/-- What one call of `Build` does: the value it returns, `envVarMap` after the
call, the configuration handed to the engine (if the engine was invoked) and the
file written (path and contents, if any). -/
structure BuildOutput where
  result : BuildResult
  envVarMap : GoMap
  engineCall : Option EsbuildOptions
  fileWrite : Option (String × String)
deriving DecidableEq, Repr

/-- The early return of `Build` with a single diagnostic. -/
def buildFailure (envVarMap : GoMap) (text detail : String) : BuildOutput :=
  { result := { Errors := [{ Text := text, Detail := detail }] }
    envVarMap := envVarMap
    engineCall := none
    fileWrite := none }

/-- The end of `Build`: the engine call and the optional metafile write. -/
def buildInvoke (w : World) (options : BuildOptions) (envVarMap : GoMap)
    (buildOptions : EsbuildOptions) : BuildOutput :=
  let result := w.esbuildBuild buildOptions
  { result := result
    envVarMap := envVarMap
    engineCall := some buildOptions
    fileWrite :=
      if options.Metafile then some (w.pathJoin options.Root "meta.json", result.Metafile)
      else none }

/-- The source-map branch of `Build` (`if hasMultipleEntrypoints ... else if
strings.HasSuffix(options.Path, ".map")`): the value of `options.Path` after
the branch, the entrypoints and the source-map mode. -/
def sourcemapBranch (path : String) (entrypoints : List String)
    (hasMultipleEntrypoints : Bool) : String × List String × SourceMap :=
  if hasMultipleEntrypoints then
    (path, entrypoints, SourceMap.SourceMapLinked)
  else if stringsHasSuffix path ".map" then
    (stringsTrimSuffix path ".map", [stringsTrimSuffix path ".map"],
      SourceMap.SourceMapExternal)
  else
    (path, entrypoints, SourceMap.SourceMapNone)

/-- The struct literal `esbuild.BuildOptions{...}` of `Build`, with the plugin
chain assigned; `Define` and `EntryNames` are not set yet. -/
def engineOptions (w : World) (options : BuildOptions) (entrypoints : List String)
    (hasMultipleEntrypoints : Bool) (sourcemap : SourceMap) : EsbuildOptions :=
  let minify : Bool := !options.Debug && decide (w.Env = ProdEnv)
  let logLevel := if options.Debug then LogLevel.LogLevelDebug else LogLevel.LogLevelSilent
  { EntryPoints := entrypoints
    Splitting := hasMultipleEntrypoints
    AbsWorkingDir := options.Root
    LogLevel := logLevel
    LogLimit := 1
    Outdir := "public/assets"
    Outbase := "./"
    ChunkNames := "_chunks/[name]-[hash]"
    Format := "esm"
    JSX := "automatic"
    JSXDev := decide (w.Env ≠ TestEnv) && decide (w.Env ≠ ProdEnv)
    MinifyWhitespace := minify
    MinifyIdentifiers := minify
    MinifySyntax := minify
    Bundle := true
    External := ["*.rjs", "*.gif", "*.jpg", "*.png", "*.woff2", "*.woff"]
    Conditions := [w.Env.name, "proscenium"]
    Write := hasMultipleEntrypoints
    Sourcemap := sourcemap
    LegalComments := "none"
    Metafile := options.Metafile
    Target := "es2022"
    Supported := [("nesting", false)]
    MainFields := ["module", "browser", "main"]
    Plugins := [Plugin.I18n, Plugin.Rjs options.BaseUrl, Plugin.Bundler, Plugin.Svg,
      Plugin.Url, Plugin.Css]
    Define := []
    EntryNames := "" }

/-- The function `Build`. -/
def Build (w : World) (envVarMap : GoMap) (options : BuildOptions) : BuildOutput :=
  let entrypoints := stringsSplit options.Path ';'
  let hasMultipleEntrypoints : Bool := decide (entrypoints.length > 1)
  match w.importmapParse options.ImportMap options.ImportMapPath options.Root with
  | some err => buildFailure envVarMap "Failed to parse import map" err
  | none =>
    let pes := sourcemapBranch options.Path entrypoints hasMultipleEntrypoints
    let options : BuildOptions := { options with Path := pes.1 }
    let buildOptions := engineOptions w options pes.2.1 hasMultipleEntrypoints pes.2.2
    if hasMultipleEntrypoints then
      match buildEnvVars w envVarMap options.EnvVars with
      | (.error err, cache) => buildFailure cache "Failed to parse environment variables" err
      | (.ok definitions, cache) =>
        buildInvoke w options cache
          { buildOptions with Define := definitions, EntryNames := "[dir]/[name]$[hash]$" }
    else if w.IsUrl options.Path || w.IsEncodedUrl options.Path then
      buildInvoke w options envVarMap
        { buildOptions with
          Define := mapSet (mapSet [] "process.env.NODE_ENV" (sprintfQuoted w.Env.name))
            "proscenium.env" "undefined" }
    else
      match buildEnvVars w envVarMap options.EnvVars with
      | (.error err, cache) => buildFailure cache "Failed to parse environment variables" err
      | (.ok definitions, cache) =>
        buildInvoke w options cache { buildOptions with Define := definitions }

/-- A sequence of build requests served by one process: `envVarMap` left by one
call is the one seen by the next. -/
def runBuilds (w : World) : GoMap → List BuildOptions → List BuildOutput
  | _, [] => []
  | envVarMap, o :: os =>
    let out := Build w envVarMap o
    out :: runBuilds w out.envVarMap os

/-! ## A sample world

Concrete collaborators on which the definitions above can be evaluated. -/

/-- States of the reader `sampleUnmarshal`. -/
inductive JsonState where
  | start
  | afterOpen
  | inKey (acc : List Char)
  | afterKey (key : List Char)
  | afterColon (key : List Char)
  | inVal (key : List Char) (acc : List Char)
  | afterVal
  | afterComma
  | done
  | fail
deriving DecidableEq, Repr

/-- One character of input for `sampleUnmarshal`.  Code 34 is the double quote,
123 and 125 are the braces, 92 is the backslash. -/
def sampleJsonStep (sm : JsonState × GoMap) (c : Char) : JsonState × GoMap :=
  let q : Char := Char.ofNat 34
  match sm.1 with
  | .start =>
    if c = Char.ofNat 123 then (.afterOpen, sm.2)
    else if c.isWhitespace then sm else (.fail, sm.2)
  | .afterOpen =>
    if c = q then (.inKey [], sm.2)
    else if c = Char.ofNat 125 then (.done, sm.2)
    else if c.isWhitespace then sm else (.fail, sm.2)
  | .inKey acc =>
    if c = q then (.afterKey acc.reverse, sm.2)
    else if c = Char.ofNat 92 then (.fail, sm.2) else (.inKey (c :: acc), sm.2)
  | .afterKey key =>
    if c = ':' then (.afterColon key, sm.2)
    else if c.isWhitespace then sm else (.fail, sm.2)
  | .afterColon key =>
    if c = q then (.inVal key [], sm.2)
    else if c.isWhitespace then sm else (.fail, sm.2)
  | .inVal key acc =>
    if c = q then (.afterVal, mapSet sm.2 (String.mk key) (String.mk acc.reverse))
    else if c = Char.ofNat 92 then (.fail, sm.2) else (.inVal key (c :: acc), sm.2)
  | .afterVal =>
    if c = ',' then (.afterComma, sm.2)
    else if c = Char.ofNat 125 then (.done, sm.2)
    else if c.isWhitespace then sm else (.fail, sm.2)
  | .afterComma =>
    if c = q then (.inKey [], sm.2)
    else if c.isWhitespace then sm else (.fail, sm.2)
  | .done => if c.isWhitespace then sm else (.fail, sm.2)
  | .fail => sm

/-- A reader for the fragment of JSON used in the examples below: one object
whose members are strings without escape sequences.  It stands for
`json.Unmarshal` in `sampleWorld`. -/
def sampleUnmarshal (s : String) : Except String GoMap :=
  match s.data.foldl sampleJsonStep (JsonState.start, []) with
  | (.done, m) => .ok m
  | _ => .error "invalid JSON for map[string]string"

/-- A world with prefix-based URL recognisers, an import-map parser that accepts
the empty document and documents opening with a brace, and an engine that
returns one empty output file per entrypoint. -/
def sampleWorld (env : Environment) : World :=
  { Env := env
    importmapParse := fun bytes _ _ =>
      match bytes with
      | [] => none
      | b :: _ => if b = 123 then none else some "unexpected token"
    jsonUnmarshal := sampleUnmarshal
    IsUrl := fun p => "http://".data.isPrefixOf p.data || "https://".data.isPrefixOf p.data
    IsEncodedUrl := fun p =>
      "http%3A%2F%2F".data.isPrefixOf p.data || "https%3A%2F%2F".data.isPrefixOf p.data
    esbuildBuild := fun cfg =>
      { OutputFiles := cfg.EntryPoints.map (fun e => { Path := e, Contents := "" })
        Metafile := "meta" }
    pathJoin := fun a b => a ++ "/" ++ b }

/-- A request for `path` with the environment blob `envVars` and no import map. -/
def sampleRequest (path envVars : String) : BuildOptions :=
  { Path := path
    Root := "/app"
    BaseUrl := "https://example.com"
    ImportMapPath := ""
    EnvVars := envVars
    ImportMap := []
    Debug := false
    Metafile := false }

/-! ## Auxiliary definitions for the statements and sample inputs -/

/-- The value that the loop of `buildEnvVars` over `l` leaves under the key `k`,
if the loop writes that key at all. -/
def lastWrite : List (String × String) → String → Option String
  | [], _ => none
  | kv :: l, k =>
    match lastWrite l k with
    | some v => some v
    | none =>
      if (kv.1 ≠ "" ∨ kv.2 ≠ "") ∧ "proscenium.env." ++ kv.1 = k then some (sprintfQuoted kv.2)
      else none

/-- The entries that a computing call of `buildEnvVars` runs its loop over. -/
def loopEntries (w : World) (envVarsS : String) : Option (List (String × String)) :=
  if envVarsS ≠ "" then
    match w.jsonUnmarshal envVarsS with
    | .error _ => none
    | .ok varsJson => some varsJson
  else some [("RAILS_ENV", w.Env.name), ("NODE_ENV", w.Env.name)]

/-- The blob with the single member `API_KEY`, value `abc`. -/
def sampleBlob : String := "\x7b\"API_KEY\":\"abc\"\x7d"

/-- A blob that is cut off after the colon. -/
def brokenBlob : String := "\x7b\"API_KEY\":"

/-- The map that a call with the empty blob leaves in `envVarMap` in the
environment named `env`. -/
def defaultsFor (env : String) : GoMap :=
  [("proscenium.env.RAILS_ENV", sprintfQuoted env),
   ("proscenium.env.NODE_ENV", sprintfQuoted env),
   ("process.env.NODE_ENV", sprintfQuoted env),
   ("proscenium.env", "undefined")]

/-- The configuration that the sample world's engine receives for `x.js.map`. -/
def sampleMapConfig : EsbuildOptions :=
  { engineOptions (sampleWorld TestEnv) (sampleRequest "x.js.map" "") ["x.js"] false
      SourceMap.SourceMapExternal with
    Define := defaultsFor "test" }

/-- The configuration that the sample world's engine receives for `a.js;b.js`. -/
def sampleMultiConfig : EsbuildOptions :=
  { engineOptions (sampleWorld TestEnv) (sampleRequest "a.js;b.js" "") ["a.js", "b.js"] true
      SourceMap.SourceMapLinked with
    Define := defaultsFor "test"
    EntryNames := "[dir]/[name]$[hash]$" }

/-- Both sentinel keys are present, and `proscenium.env` is `undefined`. -/
def SentinelsPresent (m : GoMap) : Prop :=
  (∃ v, mapGet m "process.env.NODE_ENV" = some v) ∧ mapGet m "proscenium.env" = some "undefined"

/-- The cache is either still empty or holds both sentinel keys. -/
def CacheInv (c : GoMap) : Prop := c = [] ∨ SentinelsPresent c

/-- The configuration that the engine receives for the second request of `sampleRun`. -/
def sampleSecondConfig : EsbuildOptions :=
  { engineOptions (sampleWorld ⟨"development"⟩) (sampleRequest "lib/bar.js" "") ["lib/bar.js"]
      false SourceMap.SourceMapNone with
    Define := [("proscenium.env.API_KEY", "'abc'"), ("process.env.NODE_ENV", ""),
      ("proscenium.env", "undefined")] }

/-- The sample world in the development environment, except that `utils.IsUrl`
accepts the single string `u.map` and `utils.IsEncodedUrl` accepts nothing. -/
def suffixWorld : World :=
  { sampleWorld ⟨"development"⟩ with
    IsUrl := fun p => decide (p = "u.map")
    IsEncodedUrl := fun _ => false }

/-! ## Lemmas on maps -/

theorem mapGet_nil (k : String) : mapGet [] k = none := rfl

theorem mapGet_mapSet_self (m : GoMap) (k v : String) :
    mapGet (mapSet m k v) k = some v := by
  induction m with
  | nil => simp [mapSet, mapGet, List.lookup]
  | cons e m ih =>
    obtain ⟨k', v'⟩ := e
    by_cases h : k' = k
    · simp [mapSet, h, mapGet, List.lookup]
    · have h' : (k == k') = false := by
        simp only [beq_eq_false_iff_ne, ne_eq]
        exact fun a => h a.symm
      simpa [mapSet, h, mapGet, List.lookup, h'] using ih

theorem mapGet_mapSet_ne (m : GoMap) (k k' v : String) (hk : k' ≠ k) :
    mapGet (mapSet m k v) k' = mapGet m k' := by
  induction m with
  | nil =>
    have h' : (k' == k) = false := by simpa using hk
    simp [mapSet, mapGet, List.lookup, h']
  | cons e m ih =>
    obtain ⟨k0, v0⟩ := e
    by_cases h : k0 = k
    · subst h
      have h' : (k' == k0) = false := by simpa using hk
      simp [mapSet, mapGet, List.lookup, h']
    · by_cases h2 : k' = k0
      · subst h2
        simp [mapSet, h, mapGet, List.lookup]
      · have h' : (k' == k0) = false := by simpa using h2
        simpa [mapSet, h, mapGet, List.lookup, h'] using ih

theorem mapSet_ne_nil (m : GoMap) (k v : String) : mapSet m k v ≠ [] := by
  cases m with
  | nil => simp [mapSet]
  | cons e m =>
    obtain ⟨k0, v0⟩ := e
    by_cases h : k0 = k <;> simp [mapSet, h]

theorem mapIndex_mapSet_ne (m : GoMap) (k k' v : String) (hk : k' ≠ k) :
    mapIndex (mapSet m k v) k' = mapIndex m k' := by
  simp [mapIndex, mapGet_mapSet_ne m k k' v hk]

/-! ## Lemmas on `buildEnvVars` -/

theorem namespaced_ne_sentinel (k : String) : "proscenium.env." ++ k ≠ "proscenium.env" := by
  intro h
  have h2 := congrArg String.length h
  simp [String.length_append] at h2
  have h3 : "proscenium.env.".length = 15 := by decide
  have h4 : "proscenium.env".length = 14 := by decide
  omega

theorem namespaced_ne_mirror (k : String) : "proscenium.env." ++ k ≠ "process.env.NODE_ENV" := by
  intro h
  have h2 := congrArg String.data h
  simp [String.data_append] at h2

theorem lastWrite_cons (kv : String × String) (l : List (String × String)) (k : String) :
    lastWrite (kv :: l) k =
      match lastWrite l k with
      | some v => some v
      | none =>
        if (kv.1 ≠ "" ∨ kv.2 ≠ "") ∧ "proscenium.env." ++ kv.1 = k then
          some (sprintfQuoted kv.2)
        else none := rfl

theorem mapGet_envVarsLoopStep (m : GoMap) (kv : String × String) (k : String) :
    mapGet (envVarsLoopStep m kv) k =
      if (kv.1 ≠ "" ∨ kv.2 ≠ "") ∧ "proscenium.env." ++ kv.1 = k then some (sprintfQuoted kv.2)
      else mapGet m k := by
  unfold envVarsLoopStep
  by_cases hq : kv.1 ≠ "" ∨ kv.2 ≠ ""
  · by_cases hk : "proscenium.env." ++ kv.1 = k
    · rw [if_pos hq, if_pos ⟨hq, hk⟩, ← hk, mapGet_mapSet_self]
    · rw [if_pos hq, if_neg (fun h => hk h.2), mapGet_mapSet_ne _ _ _ _ (fun h => hk h.symm)]
  · rw [if_neg hq, if_neg (fun h => hq h.1)]

theorem mapGet_loop (l : List (String × String)) (m : GoMap) (k : String) :
    mapGet (l.foldl envVarsLoopStep m) k =
      match lastWrite l k with
      | some v => some v
      | none => mapGet m k := by
  induction l generalizing m with
  | nil => simp [lastWrite]
  | cons kv l ih =>
    rw [List.foldl_cons, ih, mapGet_envVarsLoopStep, lastWrite_cons]
    generalize lastWrite l k = r
    cases r with
    | some v => rfl
    | none =>
      by_cases h : (kv.1 ≠ "" ∨ kv.2 ≠ "") ∧ "proscenium.env." ++ kv.1 = k
      · simp only [if_pos h]
      · simp only [if_neg h]

theorem lastWrite_sentinel (l : List (String × String)) :
    lastWrite l "proscenium.env" = none := by
  induction l with
  | nil => rfl
  | cons kv l ih =>
    rw [lastWrite_cons, ih]
    simp [namespaced_ne_sentinel]

theorem lastWrite_mirror (l : List (String × String)) :
    lastWrite l "process.env.NODE_ENV" = none := by
  induction l with
  | nil => rfl
  | cons kv l ih =>
    rw [lastWrite_cons, ih]
    simp [namespaced_ne_mirror]

/-- The branch of `buildEnvVars` for the empty blob is the loop run over the two
default entries. -/
theorem default_entries_eq_loop (m : GoMap) (env : String) :
    mapSet (mapSet m "proscenium.env.RAILS_ENV" (sprintfQuoted env)) "proscenium.env.NODE_ENV"
        (sprintfQuoted env) =
      [("RAILS_ENV", env), ("NODE_ENV", env)].foldl envVarsLoopStep m := by
  have h1 : "proscenium.env." ++ "RAILS_ENV" = "proscenium.env.RAILS_ENV" := by decide
  have h2 : "proscenium.env." ++ "NODE_ENV" = "proscenium.env.NODE_ENV" := by decide
  have h3 : ("RAILS_ENV" : String) ≠ "" := by decide
  have h4 : ("NODE_ENV" : String) ≠ "" := by decide
  simp [envVarsLoopStep, h1, h2, h3, h4]

/-- A computing call of `buildEnvVars` whose blob parses: the loop over the
entries, then the two closing assignments. -/
theorem buildEnvVars_compute (w : World) (envVarMap : GoMap) (envVarsS : String)
    (l : List (String × String)) (hcompute : w.Env = TestEnv ∨ envVarMap = [])
    (hl : loopEntries w envVarsS = some l) :
    buildEnvVars w envVarMap envVarsS =
      buildEnvVarsFinish (l.foldl envVarsLoopStep envVarMap) := by
  have hguard : ¬ (w.Env ≠ TestEnv ∧ mapLen envVarMap > 0) := by
    rintro ⟨h1, h2⟩
    rcases hcompute with h | h
    · exact h1 h
    · subst h
      simp [mapLen] at h2
  unfold buildEnvVars
  rw [if_neg hguard]
  unfold loopEntries at hl
  by_cases hb : envVarsS ≠ ""
  · rw [if_pos hb] at hl
    rw [if_pos hb]
    cases hj : w.jsonUnmarshal envVarsS with
    | error e => rw [hj] at hl; simp at hl
    | ok varsJson =>
      rw [hj] at hl
      simp at hl
      subst hl
      rfl
  · rw [if_neg hb] at hl
    rw [if_neg hb]
    simp at hl
    subst hl
    simp only []
    rw [default_entries_eq_loop]

theorem mapGet_finish_other (m : GoMap) (k : String) (h1 : k ≠ "process.env.NODE_ENV")
    (h2 : k ≠ "proscenium.env") :
    mapGet (buildEnvVarsFinish m).2 k = mapGet m k := by
  simp only [buildEnvVarsFinish]
  rw [mapGet_mapSet_ne _ _ _ _ h2, mapGet_mapSet_ne _ _ _ _ h1]

theorem mapGet_finish_sentinel (m : GoMap) :
    mapGet (buildEnvVarsFinish m).2 "proscenium.env" = some "undefined" := by
  simp only [buildEnvVarsFinish]
  rw [mapGet_mapSet_self]

theorem mapGet_finish_mirror (m : GoMap) :
    mapGet (buildEnvVarsFinish m).2 "process.env.NODE_ENV" =
      some (mapIndex m "proscenium.env.RAILS_ENV") := by
  simp only [buildEnvVarsFinish]
  rw [mapGet_mapSet_ne _ _ _ _ (by decide), mapGet_mapSet_self]

theorem buildEnvVarsFinish_fst (m : GoMap) :
    (buildEnvVarsFinish m).1 = .ok (buildEnvVarsFinish m).2 := rfl

theorem buildEnvVarsFinish_ne_nil (m : GoMap) : (buildEnvVarsFinish m).2 ≠ [] := by
  simp only [buildEnvVarsFinish]
  exact mapSet_ne_nil _ _ _

/-! ## The environment definition cache -/

/-- C6: outside the test environment, with a non-empty cache, `buildEnvVars`
returns the cached map with no error and leaves the cache as it was, whatever the
blob; a second call, with any blob, returns the same map again. -/
theorem buildEnvVars_returns_cache (w : World) (envVarMap : GoMap) (blob blob2 : String)
    (henv : w.Env ≠ TestEnv) (hcache : envVarMap ≠ []) :
    buildEnvVars w envVarMap blob = (.ok envVarMap, envVarMap) ∧
      buildEnvVars w (buildEnvVars w envVarMap blob).2 blob2 = (.ok envVarMap, envVarMap) := by
  have hlen : mapLen envVarMap > 0 := by
    cases envVarMap with
    | nil => exact absurd rfl hcache
    | cons e m => simp [mapLen]
  have h : ∀ b, buildEnvVars w envVarMap b = (.ok envVarMap, envVarMap) := by
    intro b
    unfold buildEnvVars
    rw [if_pos ⟨henv, hlen⟩]
  refine ⟨h blob, ?_⟩
  rw [h blob]
  exact h blob2

theorem buildEnvVars_returns_cache_witness :
    (sampleWorld ProdEnv).Env ≠ TestEnv ∧ defaultsFor "production" ≠ [] ∧
      buildEnvVars (sampleWorld ProdEnv) (defaultsFor "production") brokenBlob =
        (.ok (defaultsFor "production"), defaultsFor "production") ∧
      buildEnvVars (sampleWorld ProdEnv)
          (buildEnvVars (sampleWorld ProdEnv) (defaultsFor "production") brokenBlob).2 sampleBlob =
        (.ok (defaultsFor "production"), defaultsFor "production") :=
  ⟨by decide, by decide,
    buildEnvVars_returns_cache (sampleWorld ProdEnv) (defaultsFor "production") brokenBlob
      sampleBlob (by decide) (by decide)⟩

/-- C7: a call of `buildEnvVars` that parses its blob (test environment, or
empty cache) and is given a non-empty blob that the JSON decoder rejects returns
the decoder's error and no map, and `envVarMap` after the call is `envVarMap`
before it. -/
theorem buildEnvVars_parse_error (w : World) (envVarMap : GoMap) (blob err : String)
    (hblob : blob ≠ "") (hparse : w.jsonUnmarshal blob = .error err)
    (hcompute : w.Env = TestEnv ∨ envVarMap = []) :
    buildEnvVars w envVarMap blob = (.error err, envVarMap) := by
  have hguard : ¬ (w.Env ≠ TestEnv ∧ mapLen envVarMap > 0) := by
    rintro ⟨h1, h2⟩
    rcases hcompute with h | h
    · exact h1 h
    · subst h
      simp [mapLen] at h2
  unfold buildEnvVars
  rw [if_neg hguard, if_pos hblob, hparse]

theorem buildEnvVars_parse_error_witness :
    brokenBlob ≠ "" ∧
      (sampleWorld TestEnv).jsonUnmarshal brokenBlob =
        .error "invalid JSON for map[string]string" ∧
      buildEnvVars (sampleWorld TestEnv) (defaultsFor "test") brokenBlob =
        (.error "invalid JSON for map[string]string", defaultsFor "test") :=
  ⟨by decide, rfl,
    buildEnvVars_parse_error (sampleWorld TestEnv) (defaultsFor "test") brokenBlob
      "invalid JSON for map[string]string" (by decide) rfl (Or.inl rfl)⟩

/-- C2, the code at the blob with the single member `API_KEY`: on an empty cache
`buildEnvVars` returns a map with the namespaced `API_KEY` entry and the
`undefined` sentinel, but with neither `proscenium.env.RAILS_ENV` nor
`proscenium.env.NODE_ENV`, and with `process.env.NODE_ENV` set to the empty
string. -/
theorem buildEnvVars_api_key_only :
    sampleUnmarshal sampleBlob = .ok [("API_KEY", "abc")] ∧
      buildEnvVars (sampleWorld ⟨"development"⟩) [] sampleBlob =
        (.ok [("proscenium.env.API_KEY", "'abc'"), ("process.env.NODE_ENV", ""),
              ("proscenium.env", "undefined")],
          [("proscenium.env.API_KEY", "'abc'"), ("process.env.NODE_ENV", ""),
            ("proscenium.env", "undefined")]) ∧
      mapGet (buildEnvVars (sampleWorld ⟨"development"⟩) [] sampleBlob).2
          "proscenium.env.RAILS_ENV" = none ∧
      mapGet (buildEnvVars (sampleWorld ⟨"development"⟩) [] sampleBlob).2
          "proscenium.env.NODE_ENV" = none ∧
      mapGet (buildEnvVars (sampleWorld ⟨"development"⟩) [] sampleBlob).2
          "process.env.NODE_ENV" = some "" :=
  ⟨rfl, rfl, by decide, by decide, by decide⟩

/-- C10 as stated fails: in the test environment, a call with the `API_KEY` blob
followed by a call with the empty blob returns, the second time, a map that still
holds `proscenium.env.API_KEY` from the earlier blob; from an empty cache the empty
blob yields no such key, so the two results differ. -/
theorem buildEnvVars_test_keeps_earlier_keys :
    (sampleWorld TestEnv).Env = TestEnv ∧
      sampleUnmarshal sampleBlob = .ok [("API_KEY", "abc")] ∧
      (buildEnvVars (sampleWorld TestEnv) [] sampleBlob).2 =
        [("proscenium.env.API_KEY", "'abc'"), ("process.env.NODE_ENV", ""),
          ("proscenium.env", "undefined")] ∧
      mapGet (buildEnvVars (sampleWorld TestEnv)
          (buildEnvVars (sampleWorld TestEnv) [] sampleBlob).2 "").2
          "proscenium.env.API_KEY" = some "'abc'" ∧
      mapGet (buildEnvVars (sampleWorld TestEnv) [] "").2 "proscenium.env.API_KEY" = none ∧
      (buildEnvVars (sampleWorld TestEnv)
          (buildEnvVars (sampleWorld TestEnv) [] sampleBlob).2 "").1 ≠
        (buildEnvVars (sampleWorld TestEnv) [] "").1 :=
  ⟨rfl, rfl, by decide, by decide, by decide, by
    intro h
    have h2 : (buildEnvVars (sampleWorld TestEnv)
        (buildEnvVars (sampleWorld TestEnv) [] sampleBlob).2 "").1 =
        .ok ((buildEnvVars (sampleWorld TestEnv)
          (buildEnvVars (sampleWorld TestEnv) [] sampleBlob).2 "").2) := rfl
    have h3 : (buildEnvVars (sampleWorld TestEnv) [] "").1 =
        .ok ((buildEnvVars (sampleWorld TestEnv) [] "").2) := rfl
    rw [h2, h3] at h
    have h4 := Except.ok.inj h
    revert h4
    decide⟩

theorem loopEntries_of_parses (w : World) (blob : String)
    (hparse : blob ≠ "" → ∃ parsed, w.jsonUnmarshal blob = .ok parsed) :
    ∃ l, loopEntries w blob = some l := by
  unfold loopEntries
  by_cases hb : blob ≠ ""
  · obtain ⟨parsed, hp⟩ := hparse hb
    exact ⟨parsed, by rw [if_pos hb, hp]⟩
  · exact ⟨_, by rw [if_neg hb]⟩

/-- C10, amended: in the test environment `buildEnvVars` computes on every call,
on top of the map left by earlier calls.  For every prior cache and every blob
that parses, the returned map agrees with the map the same blob yields from an
empty cache on every key of the latter other than `process.env.NODE_ENV`; a key
the latter lacks keeps the value it had in the prior cache; and
`process.env.NODE_ENV` holds the value of `proscenium.env.RAILS_ENV` in the
returned map. -/
theorem buildEnvVars_test_overlay (w : World) (cache : GoMap) (blob : String)
    (henv : w.Env = TestEnv)
    (hparse : blob ≠ "" → ∃ parsed, w.jsonUnmarshal blob = .ok parsed) :
    (buildEnvVars w cache blob).1 = .ok (buildEnvVars w cache blob).2 ∧
      (buildEnvVars w [] blob).1 = .ok (buildEnvVars w [] blob).2 ∧
      (∀ k v, k ≠ "process.env.NODE_ENV" → mapGet (buildEnvVars w [] blob).2 k = some v →
        mapGet (buildEnvVars w cache blob).2 k = some v) ∧
      (∀ k, mapGet (buildEnvVars w [] blob).2 k = none →
        mapGet (buildEnvVars w cache blob).2 k = mapGet cache k) ∧
      mapGet (buildEnvVars w cache blob).2 "process.env.NODE_ENV" =
        some (mapIndex (buildEnvVars w cache blob).2 "proscenium.env.RAILS_ENV") := by
  obtain ⟨l, hl⟩ := loopEntries_of_parses w blob hparse
  rw [buildEnvVars_compute w cache blob l (Or.inl henv) hl,
    buildEnvVars_compute w [] blob l (Or.inl henv) hl]
  refine ⟨rfl, rfl, ?_, ?_, ?_⟩
  · intro k v hk h0
    by_cases hs : k = "proscenium.env"
    · subst hs
      rw [mapGet_finish_sentinel] at h0
      rw [mapGet_finish_sentinel]
      exact h0
    · rw [mapGet_finish_other _ _ hk hs, mapGet_loop] at h0
      rw [mapGet_finish_other _ _ hk hs, mapGet_loop]
      cases hw : lastWrite l k with
      | some u =>
        rw [hw] at h0
        exact h0
      | none =>
        rw [hw] at h0
        simp [mapGet_nil] at h0
  · intro k h0
    by_cases hs : k = "proscenium.env"
    · subst hs
      rw [mapGet_finish_sentinel] at h0
      exact absurd h0 (by simp)
    · by_cases hm : k = "process.env.NODE_ENV"
      · subst hm
        rw [mapGet_finish_mirror] at h0
        exact absurd h0 (by simp)
      · rw [mapGet_finish_other _ _ hm hs, mapGet_loop] at h0
        rw [mapGet_finish_other _ _ hm hs, mapGet_loop]
        cases hw : lastWrite l k with
        | some u =>
          rw [hw] at h0
          simp at h0
        | none => rfl
  · rw [mapGet_finish_mirror]
    simp only [mapIndex]
    rw [mapGet_finish_other _ _ (by decide) (by decide)]

theorem buildEnvVars_test_overlay_witness :
    (sampleWorld TestEnv).Env = TestEnv ∧
      (sampleBlob ≠ "" → ∃ parsed, (sampleWorld TestEnv).jsonUnmarshal sampleBlob = .ok parsed) ∧
      mapGet (buildEnvVars (sampleWorld TestEnv) (defaultsFor "test") sampleBlob).2
          "proscenium.env.API_KEY" = some "'abc'" ∧
      mapGet (buildEnvVars (sampleWorld TestEnv) (defaultsFor "test") sampleBlob).2
          "proscenium.env.NODE_ENV" = mapGet (defaultsFor "test") "proscenium.env.NODE_ENV" :=
  ⟨rfl, fun _ => ⟨_, rfl⟩,
    (buildEnvVars_test_overlay (sampleWorld TestEnv) (defaultsFor "test") sampleBlob rfl
      (fun _ => ⟨_, rfl⟩)).2.2.1 "proscenium.env.API_KEY" "'abc'" (by decide) (by decide),
    (buildEnvVars_test_overlay (sampleWorld TestEnv) (defaultsFor "test") sampleBlob rfl
      (fun _ => ⟨_, rfl⟩)).2.2.2.1 "proscenium.env.NODE_ENV" (by decide)⟩

/-- A computing call of `buildEnvVars` with the empty blob: the three
environment entries all hold the quoted environment name. -/
theorem emptyBlob_entries (w : World) (envVarMap : GoMap)
    (hcompute : w.Env = TestEnv ∨ envVarMap = []) :
    (buildEnvVars w envVarMap "").1 = .ok (buildEnvVars w envVarMap "").2 ∧
      mapGet (buildEnvVars w envVarMap "").2 "proscenium.env.RAILS_ENV" =
        some (sprintfQuoted w.Env.name) ∧
      mapGet (buildEnvVars w envVarMap "").2 "proscenium.env.NODE_ENV" =
        some (sprintfQuoted w.Env.name) ∧
      mapGet (buildEnvVars w envVarMap "").2 "process.env.NODE_ENV" =
        some (sprintfQuoted w.Env.name) := by
  have hl : loopEntries w "" = some [("RAILS_ENV", w.Env.name), ("NODE_ENV", w.Env.name)] := by
    simp [loopEntries]
  rw [buildEnvVars_compute w envVarMap "" _ hcompute hl, ← default_entries_eq_loop]
  have hr : mapGet (mapSet (mapSet envVarMap "proscenium.env.RAILS_ENV"
      (sprintfQuoted w.Env.name)) "proscenium.env.NODE_ENV" (sprintfQuoted w.Env.name))
      "proscenium.env.RAILS_ENV" = some (sprintfQuoted w.Env.name) := by
    rw [mapGet_mapSet_ne _ _ _ _ (by decide), mapGet_mapSet_self]
  refine ⟨rfl, ?_, ?_, ?_⟩
  · rw [mapGet_finish_other _ _ (by decide) (by decide), hr]
  · rw [mapGet_finish_other _ _ (by decide) (by decide), mapGet_mapSet_self]
  · rw [mapGet_finish_mirror]
    simp only [mapIndex]
    rw [hr]
    rfl

/-! ## Lemmas on strings -/

theorem stringsSplit_ne_nil (s : String) (sep : Char) : stringsSplit s sep ≠ [] := by
  unfold stringsSplit
  intro h
  rw [List.map_eq_nil_iff] at h
  exact List.splitOnP_ne_nil _ _ h

/-- Joining the pieces of `strings.Split` with the separator gives the string back. -/
theorem stringsSplit_join (s : String) (sep : Char) :
    [sep].intercalate ((stringsSplit s sep).map String.data) = s.data := by
  unfold stringsSplit
  rw [List.map_map]
  have h : (String.data ∘ String.mk) = id := by
    funext l
    rfl
  rw [h, List.map_id, List.intercalate_splitOn]

theorem stringsSplit_single (s : String) (sep : Char)
    (h : ¬ 1 < (stringsSplit s sep).length) : stringsSplit s sep = [s] := by
  have hj := stringsSplit_join s sep
  have hne := stringsSplit_ne_nil s sep
  cases hs : stringsSplit s sep with
  | nil => exact absurd hs hne
  | cons a t =>
    cases t with
    | nil =>
      rw [hs] at hj
      simp [List.intercalate] at hj
      have : a = s := by
        cases a
        cases s
        simp_all
      rw [this]
    | cons b t2 =>
      rw [hs] at h
      simp at h

theorem stringsSplit_of_no_sep (s : String) (sep : Char) (h : sep ∉ s.data) :
    stringsSplit s sep = [s] := by
  unfold stringsSplit List.splitOn
  rw [List.splitOnP_eq_single]
  · rfl
  · intro x hx hxs
    simp at hxs
    subst hxs
    exact h hx

/-- When `strings.HasSuffix` holds, `strings.TrimSuffix` removes exactly the suffix. -/
theorem stringsTrimSuffix_append (s suffix : String) (h : stringsHasSuffix s suffix = true) :
    stringsTrimSuffix s suffix ++ suffix = s := by
  unfold stringsTrimSuffix
  rw [if_pos h]
  unfold stringsHasSuffix at h
  rw [List.isSuffixOf_iff_suffix] at h
  obtain ⟨t, ht⟩ := h
  apply String.ext
  rw [String.data_append]
  simp only []
  rw [← ht]
  simp

theorem stringsTrimSuffix_of_not (s suffix : String) (h : stringsHasSuffix s suffix = false) :
    stringsTrimSuffix s suffix = s := by
  unfold stringsTrimSuffix
  simp [h]

/-! ## The shape of `Build` -/

theorem Build_importmap_error (w : World) (c : GoMap) (o : BuildOptions) (err : String)
    (himp : w.importmapParse o.ImportMap o.ImportMapPath o.Root = some err) :
    Build w c o = buildFailure c "Failed to parse import map" err := by
  unfold Build
  simp only [himp]

/-- The multi-entrypoint branch. -/
theorem Build_multi (w : World) (c : GoMap) (o : BuildOptions)
    (himp : w.importmapParse o.ImportMap o.ImportMapPath o.Root = none)
    (hm : 1 < (stringsSplit o.Path ';').length) :
    Build w c o =
      match buildEnvVars w c o.EnvVars with
      | (.error err, cache) => buildFailure cache "Failed to parse environment variables" err
      | (.ok definitions, cache) =>
        buildInvoke w o cache
          { engineOptions w o (stringsSplit o.Path ';') true SourceMap.SourceMapLinked with
            Define := definitions, EntryNames := "[dir]/[name]$[hash]$" } := by
  unfold Build
  simp only [himp, gt_iff_lt, hm, decide_True, if_true, sourcemapBranch]

/-- The branch for a single path that the recognisers accept. -/
theorem Build_url (w : World) (c : GoMap) (o : BuildOptions)
    (himp : w.importmapParse o.ImportMap o.ImportMapPath o.Root = none)
    (hm : ¬ 1 < (stringsSplit o.Path ';').length)
    (hurl : (w.IsUrl (stringsTrimSuffix o.Path ".map") ||
      w.IsEncodedUrl (stringsTrimSuffix o.Path ".map")) = true) :
    Build w c o =
      buildInvoke w o c
        { engineOptions w o
            (sourcemapBranch o.Path (stringsSplit o.Path ';') false).2.1 false
            (sourcemapBranch o.Path (stringsSplit o.Path ';') false).2.2 with
          Define := mapSet (mapSet [] "process.env.NODE_ENV" (sprintfQuoted w.Env.name))
            "proscenium.env" "undefined" } := by
  have hp : (sourcemapBranch o.Path (stringsSplit o.Path ';') false).1 =
      stringsTrimSuffix o.Path ".map" := by
    unfold sourcemapBranch
    cases hs : stringsHasSuffix o.Path ".map" with
    | true => simp
    | false => simp [stringsTrimSuffix_of_not _ _ hs]
  unfold Build
  simp only [himp, gt_iff_lt, hm, decide_False, hp, hurl, if_true]
  simp only [Bool.false_eq_true, if_false]
  rfl

/-- The default branch: a single path that the recognisers reject. -/
theorem Build_plain (w : World) (c : GoMap) (o : BuildOptions)
    (himp : w.importmapParse o.ImportMap o.ImportMapPath o.Root = none)
    (hm : ¬ 1 < (stringsSplit o.Path ';').length)
    (hurl : (w.IsUrl (stringsTrimSuffix o.Path ".map") ||
      w.IsEncodedUrl (stringsTrimSuffix o.Path ".map")) = false) :
    Build w c o =
      match buildEnvVars w c o.EnvVars with
      | (.error err, cache) => buildFailure cache "Failed to parse environment variables" err
      | (.ok definitions, cache) =>
        buildInvoke w o cache
          { engineOptions w o
              (sourcemapBranch o.Path (stringsSplit o.Path ';') false).2.1 false
              (sourcemapBranch o.Path (stringsSplit o.Path ';') false).2.2 with
            Define := definitions } := by
  have hp : (sourcemapBranch o.Path (stringsSplit o.Path ';') false).1 =
      stringsTrimSuffix o.Path ".map" := by
    unfold sourcemapBranch
    cases hs : stringsHasSuffix o.Path ".map" with
    | true => simp
    | false => simp [stringsTrimSuffix_of_not _ _ hs]
  unfold Build
  simp only [himp, gt_iff_lt, hm, decide_False, hp, hurl]
  simp only [Bool.false_eq_true, if_false]
  rfl

theorem buildInvoke_engineCall (w : World) (o : BuildOptions) (c : GoMap)
    (cfg : EsbuildOptions) : (buildInvoke w o c cfg).engineCall = some cfg := rfl

theorem buildInvoke_envVarMap (w : World) (o : BuildOptions) (c : GoMap)
    (cfg : EsbuildOptions) : (buildInvoke w o c cfg).envVarMap = c := rfl

/-- Every configuration that reaches the engine is the struct literal of `Build`
for the outcome of the source-map branch, with some definitions map, and with the
entry-name template set in the multi-entrypoint case only. -/
theorem Build_engineCall (w : World) (c : GoMap) (o : BuildOptions) (cfg : EsbuildOptions)
    (h : (Build w c o).engineCall = some cfg) :
    ∃ d, cfg =
      { engineOptions w o
          (sourcemapBranch o.Path (stringsSplit o.Path ';')
            (decide (1 < (stringsSplit o.Path ';').length))).2.1
          (decide (1 < (stringsSplit o.Path ';').length))
          (sourcemapBranch o.Path (stringsSplit o.Path ';')
            (decide (1 < (stringsSplit o.Path ';').length))).2.2 with
        Define := d
        EntryNames :=
          if 1 < (stringsSplit o.Path ';').length then "[dir]/[name]$[hash]$" else "" } := by
  cases himp : w.importmapParse o.ImportMap o.ImportMapPath o.Root with
  | some err =>
    rw [Build_importmap_error w c o err himp] at h
    simp [buildFailure] at h
  | none =>
    by_cases hm : 1 < (stringsSplit o.Path ';').length
    · rw [Build_multi w c o himp hm] at h
      cases hb : buildEnvVars w c o.EnvVars with
      | mk r c2 =>
        rw [hb] at h
        cases r with
        | error e => simp [buildFailure] at h
        | ok d =>
          simp only [buildInvoke_engineCall, Option.some.injEq] at h
          refine ⟨d, ?_⟩
          rw [← h]
          simp [hm, sourcemapBranch]
    · cases hurl : (w.IsUrl (stringsTrimSuffix o.Path ".map") ||
          w.IsEncodedUrl (stringsTrimSuffix o.Path ".map")) with
      | true =>
        rw [Build_url w c o himp hm hurl] at h
        simp only [buildInvoke_engineCall, Option.some.injEq] at h
        refine ⟨mapSet (mapSet [] "process.env.NODE_ENV" (sprintfQuoted w.Env.name))
          "proscenium.env" "undefined", ?_⟩
        rw [← h]
        simp [hm, engineOptions]
      | false =>
        rw [Build_plain w c o himp hm hurl] at h
        cases hb : buildEnvVars w c o.EnvVars with
        | mk r c2 =>
          rw [hb] at h
          cases r with
          | error e => simp [buildFailure] at h
          | ok d =>
            simp only [buildInvoke_engineCall, Option.some.injEq] at h
            refine ⟨d, ?_⟩
            rw [← h]
            simp [hm, engineOptions]

/-! ## Entrypoints, source maps, splitting -/

/-- C3: the entrypoint list and the source-map mode handed to the engine.  With
more than one `;`-separated entry the entrypoints are the entries, in order (joined
by `;` they give the path back), and the mode is linked, whatever the suffix;
otherwise, if the path ends in `.map`, the only entrypoint is the path without
that suffix and the mode is external; otherwise the only entrypoint is the path
and the mode is none. -/
theorem Build_entrypoints_sourcemap (w : World) (c : GoMap) (o : BuildOptions)
    (cfg : EsbuildOptions) (h : (Build w c o).engineCall = some cfg) :
    (1 < (stringsSplit o.Path ';').length →
        cfg.EntryPoints = stringsSplit o.Path ';' ∧
        [';'].intercalate (cfg.EntryPoints.map String.data) = o.Path.data ∧
        cfg.Sourcemap = SourceMap.SourceMapLinked) ∧
      (¬ 1 < (stringsSplit o.Path ';').length → stringsHasSuffix o.Path ".map" = true →
        cfg.EntryPoints = [stringsTrimSuffix o.Path ".map"] ∧
        stringsTrimSuffix o.Path ".map" ++ ".map" = o.Path ∧
        cfg.Sourcemap = SourceMap.SourceMapExternal) ∧
      (¬ 1 < (stringsSplit o.Path ';').length → stringsHasSuffix o.Path ".map" = false →
        cfg.EntryPoints = [o.Path] ∧ cfg.Sourcemap = SourceMap.SourceMapNone) := by
  obtain ⟨d, hd⟩ := Build_engineCall w c o cfg h
  subst hd
  refine ⟨?_, ?_, ?_⟩
  · intro hm
    refine ⟨?_, ?_, ?_⟩
    · simp [engineOptions, sourcemapBranch, hm]
    · simp only [engineOptions, sourcemapBranch, hm, decide_True, if_true]
      exact stringsSplit_join o.Path ';'
    · simp [engineOptions, sourcemapBranch, hm]
  · intro hm hs
    refine ⟨?_, stringsTrimSuffix_append _ _ hs, ?_⟩
    · simp [engineOptions, sourcemapBranch, hm, hs]
    · simp [engineOptions, sourcemapBranch, hm, hs]
  · intro hm hs
    refine ⟨?_, ?_⟩
    · simp [engineOptions, sourcemapBranch, hm, hs, stringsSplit_single _ _ hm]
    · simp [engineOptions, sourcemapBranch, hm, hs]

/-- C4: the code-splitting flag and the write-to-disk flag of a configuration
that reaches the engine are both true exactly when the path holds more than one
`;`-separated entry, and the entry-name template `[dir]/[name]$[hash]$` is set
exactly in that case. -/
theorem Build_splitting_write (w : World) (c : GoMap) (o : BuildOptions)
    (cfg : EsbuildOptions) (h : (Build w c o).engineCall = some cfg) :
    (cfg.Splitting = true ↔ 1 < (stringsSplit o.Path ';').length) ∧
      (cfg.Write = true ↔ 1 < (stringsSplit o.Path ';').length) ∧
      (cfg.EntryNames = "[dir]/[name]$[hash]$" ↔ 1 < (stringsSplit o.Path ';').length) := by
  obtain ⟨d, hd⟩ := Build_engineCall w c o cfg h
  subst hd
  refine ⟨?_, ?_, ?_⟩
  · simp [engineOptions]
  · simp [engineOptions]
  · by_cases hm : 1 < (stringsSplit o.Path ';').length
    · simp [hm]
    · simp only [hm, if_false, iff_false]
      decide

theorem Build_entrypoints_sourcemap_witness :
    (Build (sampleWorld TestEnv) [] (sampleRequest "x.js.map" "")).engineCall =
        some sampleMapConfig ∧
      ¬ 1 < (stringsSplit (sampleRequest "x.js.map" "").Path ';').length ∧
      stringsHasSuffix (sampleRequest "x.js.map" "").Path ".map" = true ∧
      sampleMapConfig.EntryPoints = [stringsTrimSuffix (sampleRequest "x.js.map" "").Path ".map"] ∧
      stringsTrimSuffix (sampleRequest "x.js.map" "").Path ".map" ++ ".map" =
        (sampleRequest "x.js.map" "").Path ∧
      sampleMapConfig.Sourcemap = SourceMap.SourceMapExternal :=
  ⟨rfl, by decide, by decide,
    (Build_entrypoints_sourcemap (sampleWorld TestEnv) [] (sampleRequest "x.js.map" "")
      sampleMapConfig rfl).2.1 (by decide) (by decide)⟩

theorem Build_splitting_write_witness :
    (Build (sampleWorld TestEnv) [] (sampleRequest "a.js;b.js" "")).engineCall =
        some sampleMultiConfig ∧
      ((sampleMultiConfig.Splitting = true ↔
          1 < (stringsSplit (sampleRequest "a.js;b.js" "").Path ';').length) ∧
        (sampleMultiConfig.Write = true ↔
          1 < (stringsSplit (sampleRequest "a.js;b.js" "").Path ';').length) ∧
        (sampleMultiConfig.EntryNames = "[dir]/[name]$[hash]$" ↔
          1 < (stringsSplit (sampleRequest "a.js;b.js" "").Path ';').length)) :=
  ⟨rfl,
    Build_splitting_write (sampleWorld TestEnv) [] (sampleRequest "a.js;b.js" "")
      sampleMultiConfig rfl⟩

/-! ## Definitions for URL requests -/

/-- C1 as stated fails: `Build` applies the recognisers to the path after a
trailing `.map` has been removed.  In `suffixWorld` the path `u.map` has no `;`,
the import map parses and `utils.IsUrl` recognises the path, yet the recognisers
are asked about `u`, the default branch runs, and the engine receives the
namespaced `API_KEY` entry of the blob. -/
theorem Build_url_recognisers_see_trimmed_path :
    ';' ∉ (sampleRequest "u.map" sampleBlob).Path.data ∧
      suffixWorld.importmapParse (sampleRequest "u.map" sampleBlob).ImportMap
        (sampleRequest "u.map" sampleBlob).ImportMapPath
        (sampleRequest "u.map" sampleBlob).Root = none ∧
      suffixWorld.IsUrl (sampleRequest "u.map" sampleBlob).Path = true ∧
      suffixWorld.IsUrl (stringsTrimSuffix (sampleRequest "u.map" sampleBlob).Path ".map") =
        false ∧
      (Build suffixWorld [] (sampleRequest "u.map" sampleBlob)).engineCall.map
          (fun cfg => cfg.Define) =
        some [("proscenium.env.API_KEY", "'abc'"), ("process.env.NODE_ENV", ""),
          ("proscenium.env", "undefined")] ∧
      (Build suffixWorld [] (sampleRequest "u.map" sampleBlob)).engineCall.map
          (fun cfg => cfg.Define) ≠
        some [("process.env.NODE_ENV", sprintfQuoted suffixWorld.Env.name),
          ("proscenium.env", "undefined")] :=
  ⟨by decide, rfl, by decide, by decide, by decide, by decide⟩

/-- C1, amended: for a path without `;` that `utils.IsUrl` or
`utils.IsEncodedUrl` recognises once one trailing `.map` has been removed (the
path itself when it does not end in `.map`), with an import map that parses, the
engine is invoked with a definitions map of exactly two entries,
`process.env.NODE_ENV` (the environment name in single quotes) and
`proscenium.env` (`undefined`), for every blob and every cache; the cache is not
touched, and a request that differs in the blob, served from any cache, gets the
same definitions. -/
theorem Build_url_definitions (w : World) (c : GoMap) (o : BuildOptions)
    (hsingle : ';' ∉ o.Path.data)
    (himp : w.importmapParse o.ImportMap o.ImportMapPath o.Root = none)
    (hurl : w.IsUrl (stringsTrimSuffix o.Path ".map") = true ∨
      w.IsEncodedUrl (stringsTrimSuffix o.Path ".map") = true) :
    (Build w c o).engineCall.map (fun cfg => cfg.Define) =
        some [("process.env.NODE_ENV", sprintfQuoted w.Env.name), ("proscenium.env", "undefined")] ∧
      (Build w c o).envVarMap = c ∧
      (∀ (blob : String) (c2 : GoMap),
        (Build w c2 { o with EnvVars := blob }).engineCall.map (fun cfg => cfg.Define) =
          (Build w c o).engineCall.map (fun cfg => cfg.Define)) ∧
      (stringsHasSuffix o.Path ".map" = false → stringsTrimSuffix o.Path ".map" = o.Path) := by
  have hm : ¬ 1 < (stringsSplit o.Path ';').length := by
    rw [stringsSplit_of_no_sep _ _ hsingle]
    simp
  have ht : (w.IsUrl (stringsTrimSuffix o.Path ".map") ||
      w.IsEncodedUrl (stringsTrimSuffix o.Path ".map")) = true := by
    rw [Bool.or_eq_true]
    exact hurl
  have hkey : ("process.env.NODE_ENV" : String) ≠ "proscenium.env" := by decide
  have hgen : ∀ (blob : String) (c2 : GoMap),
      (Build w c2 { o with EnvVars := blob }).engineCall.map (fun cfg => cfg.Define) =
        some [("process.env.NODE_ENV", sprintfQuoted w.Env.name),
          ("proscenium.env", "undefined")] := by
    intro blob c2
    rw [Build_url w c2 { o with EnvVars := blob } himp hm ht, buildInvoke_engineCall]
    simp [mapSet, hkey]
  have h0 : (Build w c o).engineCall.map (fun cfg => cfg.Define) =
      some [("process.env.NODE_ENV", sprintfQuoted w.Env.name),
        ("proscenium.env", "undefined")] := hgen o.EnvVars c
  refine ⟨h0, ?_, ?_, ?_⟩
  · rw [Build_url w c o himp hm ht, buildInvoke_envVarMap]
  · intro blob c2
    rw [hgen blob c2, h0]
  · exact stringsTrimSuffix_of_not o.Path ".map"

theorem Build_url_definitions_witness :
    ';' ∉ (sampleRequest "https://cdn.test/lib.js.map" sampleBlob).Path.data ∧
      (sampleWorld ProdEnv).IsUrl
          (stringsTrimSuffix (sampleRequest "https://cdn.test/lib.js.map" sampleBlob).Path
            ".map") = true ∧
      (Build (sampleWorld ProdEnv) (defaultsFor "production")
          (sampleRequest "https://cdn.test/lib.js.map" sampleBlob)).engineCall.map
            (fun cfg => cfg.Define) =
        some [("process.env.NODE_ENV", sprintfQuoted (sampleWorld ProdEnv).Env.name),
          ("proscenium.env", "undefined")] :=
  ⟨by decide, by decide,
    (Build_url_definitions (sampleWorld ProdEnv) (defaultsFor "production")
      (sampleRequest "https://cdn.test/lib.js.map" sampleBlob) (by decide) rfl
      (Or.inl (by decide))).1⟩

/-! ## Parse failures -/

/-- C5: when `importmap.Parse` fails, `Build` returns a result with the single
diagnostic "Failed to parse import map" carrying the parser's message, no output
files, no engine call and no file written, and `envVarMap` is untouched (the blob
is not looked at, so this failure wins when both inputs are bad); when the import
map parses and the call of `buildEnvVars` made by `Build` returns an error, the
result holds the single diagnostic "Failed to parse environment variables" with
that message, again with no output files, no engine call and no file written. -/
theorem Build_parse_errors (w : World) (c : GoMap) (o : BuildOptions) :
    (∀ err, w.importmapParse o.ImportMap o.ImportMapPath o.Root = some err →
        Build w c o =
          { result :=
              { Errors := [{ Text := "Failed to parse import map", Detail := err }]
                Warnings := []
                OutputFiles := []
                Metafile := "" }
            envVarMap := c
            engineCall := none
            fileWrite := none }) ∧
      (w.importmapParse o.ImportMap o.ImportMapPath o.Root = none →
        (1 < (stringsSplit o.Path ';').length ∨
          (w.IsUrl (stringsTrimSuffix o.Path ".map") ||
            w.IsEncodedUrl (stringsTrimSuffix o.Path ".map")) = false) →
        ∀ err c2, buildEnvVars w c o.EnvVars = (.error err, c2) →
          Build w c o =
            { result :=
                { Errors := [{ Text := "Failed to parse environment variables", Detail := err }]
                  Warnings := []
                  OutputFiles := []
                  Metafile := "" }
              envVarMap := c2
              engineCall := none
              fileWrite := none }) := by
  refine ⟨?_, ?_⟩
  · intro err himp
    rw [Build_importmap_error w c o err himp]
    rfl
  · intro himp hbranch err c2 hb
    by_cases hm : 1 < (stringsSplit o.Path ';').length
    · rw [Build_multi w c o himp hm, hb]
      rfl
    · rcases hbranch with h | h
      · exact absurd h hm
      · rw [Build_plain w c o himp hm h, hb]
        rfl

theorem Build_parse_errors_witness :
    (sampleWorld TestEnv).importmapParse [0] "" "/app" = some "unexpected token" ∧
      Build (sampleWorld TestEnv) (defaultsFor "test")
          { sampleRequest "lib/foo.js" brokenBlob with ImportMap := [0] } =
        { result :=
            { Errors := [{ Text := "Failed to parse import map", Detail := "unexpected token" }]
              Warnings := []
              OutputFiles := []
              Metafile := "" }
          envVarMap := defaultsFor "test"
          engineCall := none
          fileWrite := none } :=
  ⟨rfl,
    (Build_parse_errors (sampleWorld TestEnv) (defaultsFor "test")
      { sampleRequest "lib/foo.js" brokenBlob with ImportMap := [0] }).1 "unexpected token" rfl⟩

/-! ## Defaults for the empty blob -/

/-- C9: a call of `buildEnvVars` with the empty blob that computes (test
environment, or empty cache) returns a map in which `proscenium.env.RAILS_ENV`,
`proscenium.env.NODE_ENV` and `process.env.NODE_ENV` all hold the environment name
in single quotes, whatever the cache held before; and in the test environment a
build with no blob hands the engine `process.env.NODE_ENV` defined as `'test'`. -/
theorem buildEnvVars_empty_blob (w : World) (envVarMap : GoMap)
    (hcompute : w.Env = TestEnv ∨ envVarMap = []) :
    ((buildEnvVars w envVarMap "").1 = .ok (buildEnvVars w envVarMap "").2 ∧
        mapGet (buildEnvVars w envVarMap "").2 "proscenium.env.RAILS_ENV" =
          some (sprintfQuoted w.Env.name) ∧
        mapGet (buildEnvVars w envVarMap "").2 "proscenium.env.NODE_ENV" =
          some (sprintfQuoted w.Env.name) ∧
        mapGet (buildEnvVars w envVarMap "").2 "process.env.NODE_ENV" =
          some (sprintfQuoted w.Env.name)) ∧
      (w.Env = TestEnv → ∀ o : BuildOptions, o.EnvVars = "" →
        w.importmapParse o.ImportMap o.ImportMapPath o.Root = none →
        ∃ cfg, (Build w envVarMap o).engineCall = some cfg ∧
          mapGet cfg.Define "process.env.NODE_ENV" = some "'test'") := by
  refine ⟨emptyBlob_entries w envVarMap hcompute, ?_⟩
  intro henv o hblob himp
  have hq : sprintfQuoted w.Env.name = "'test'" := by
    rw [henv]
    decide
  obtain ⟨h1, _, _, h4⟩ := emptyBlob_entries w envVarMap (Or.inl henv)
  rw [hq] at h4
  by_cases hm : 1 < (stringsSplit o.Path ';').length
  · rw [Build_multi w envVarMap o himp hm, hblob]
    cases hb : buildEnvVars w envVarMap "" with
    | mk r c2 =>
      rw [hb] at h1 h4
      simp only [] at h1 h4
      subst h1
      exact ⟨_, rfl, h4⟩
  · cases hurl : (w.IsUrl (stringsTrimSuffix o.Path ".map") ||
        w.IsEncodedUrl (stringsTrimSuffix o.Path ".map")) with
    | true =>
      rw [Build_url w envVarMap o himp hm hurl]
      refine ⟨_, rfl, ?_⟩
      simp only []
      rw [mapGet_mapSet_ne _ _ _ _ (by decide), mapGet_mapSet_self, hq]
    | false =>
      rw [Build_plain w envVarMap o himp hm hurl, hblob]
      cases hb : buildEnvVars w envVarMap "" with
      | mk r c2 =>
        rw [hb] at h1 h4
        simp only [] at h1 h4
        subst h1
        exact ⟨_, rfl, h4⟩

theorem buildEnvVars_empty_blob_witness :
    ((sampleWorld TestEnv).Env = TestEnv ∨
        (buildEnvVars (sampleWorld TestEnv) [] sampleBlob).2 = []) ∧
      mapGet (buildEnvVars (sampleWorld TestEnv)
          (buildEnvVars (sampleWorld TestEnv) [] sampleBlob).2 "").2
          "process.env.NODE_ENV" = some (sprintfQuoted (sampleWorld TestEnv).Env.name) :=
  ⟨Or.inl rfl,
    (buildEnvVars_empty_blob (sampleWorld TestEnv)
      (buildEnvVars (sampleWorld TestEnv) [] sampleBlob).2 (Or.inl rfl)).1.2.2.2⟩

/-! ## Sentinel keys along a run -/

theorem sentinelsPresent_finish (m : GoMap) : SentinelsPresent (buildEnvVarsFinish m).2 :=
  ⟨⟨_, mapGet_finish_mirror m⟩, mapGet_finish_sentinel m⟩

/-- A call of `buildEnvVars` keeps the cache invariant, and a map it returns
holds both sentinel keys. -/
theorem buildEnvVars_inv (w : World) (c : GoMap) (blob : String) (hinv : CacheInv c) :
    CacheInv (buildEnvVars w c blob).2 ∧
      ∀ m, (buildEnvVars w c blob).1 = .ok m → SentinelsPresent m := by
  unfold buildEnvVars
  by_cases hg : w.Env ≠ TestEnv ∧ mapLen c > 0
  · rw [if_pos hg]
    have hc : SentinelsPresent c := by
      rcases hinv with h | h
      · subst h
        simp [mapLen] at hg
      · exact h
    refine ⟨Or.inr hc, ?_⟩
    intro m hm
    simp only [Except.ok.injEq] at hm
    rw [← hm]
    exact hc
  · rw [if_neg hg]
    by_cases hb : blob ≠ ""
    · rw [if_pos hb]
      cases hj : w.jsonUnmarshal blob with
      | error e =>
        refine ⟨hinv, ?_⟩
        intro m hm
        simp at hm
      | ok varsJson =>
        refine ⟨Or.inr (sentinelsPresent_finish _), ?_⟩
        intro m hm
        simp only [buildEnvVarsFinish_fst, Except.ok.injEq] at hm
        rw [← hm]
        exact sentinelsPresent_finish _
    · rw [if_neg hb]
      refine ⟨Or.inr (sentinelsPresent_finish _), ?_⟩
      intro m hm
      simp only [buildEnvVarsFinish_fst, Except.ok.injEq] at hm
      rw [← hm]
      exact sentinelsPresent_finish _

/-- A call of `Build` keeps the cache invariant, and the definitions it hands to
the engine hold both sentinel keys. -/
theorem Build_inv (w : World) (c : GoMap) (o : BuildOptions) (hinv : CacheInv c) :
    CacheInv (Build w c o).envVarMap ∧
      ∀ cfg, (Build w c o).engineCall = some cfg → SentinelsPresent cfg.Define := by
  cases himp : w.importmapParse o.ImportMap o.ImportMapPath o.Root with
  | some err =>
    rw [Build_importmap_error w c o err himp]
    refine ⟨hinv, ?_⟩
    intro cfg h
    simp [buildFailure] at h
  | none =>
    obtain ⟨hi1, hi2⟩ := buildEnvVars_inv w c o.EnvVars hinv
    by_cases hm : 1 < (stringsSplit o.Path ';').length
    · rw [Build_multi w c o himp hm]
      cases hb : buildEnvVars w c o.EnvVars with
      | mk r c2 =>
        rw [hb] at hi1 hi2
        cases r with
        | error e =>
          refine ⟨hi1, ?_⟩
          intro cfg h
          simp [buildFailure] at h
        | ok d =>
          refine ⟨hi1, ?_⟩
          intro cfg h
          simp only [buildInvoke_engineCall, Option.some.injEq] at h
          rw [← h]
          exact hi2 d rfl
    · cases hurl : (w.IsUrl (stringsTrimSuffix o.Path ".map") ||
          w.IsEncodedUrl (stringsTrimSuffix o.Path ".map")) with
      | true =>
        rw [Build_url w c o himp hm hurl]
        refine ⟨hinv, ?_⟩
        intro cfg h
        simp only [buildInvoke_engineCall, Option.some.injEq] at h
        rw [← h]
        refine ⟨⟨sprintfQuoted w.Env.name, ?_⟩, ?_⟩
        · simp only []
          rw [mapGet_mapSet_ne _ _ _ _ (by decide), mapGet_mapSet_self]
        · simp only []
          rw [mapGet_mapSet_self]
      | false =>
        rw [Build_plain w c o himp hm hurl]
        cases hb : buildEnvVars w c o.EnvVars with
        | mk r c2 =>
          rw [hb] at hi1 hi2
          cases r with
          | error e =>
            refine ⟨hi1, ?_⟩
            intro cfg h
            simp [buildFailure] at h
          | ok d =>
            refine ⟨hi1, ?_⟩
            intro cfg h
            simp only [buildInvoke_engineCall, Option.some.injEq] at h
            rw [← h]
            exact hi2 d rfl

theorem runBuilds_inv (w : World) (reqs : List BuildOptions) :
    ∀ c, CacheInv c → ∀ out ∈ runBuilds w c reqs, ∀ cfg, out.engineCall = some cfg →
      SentinelsPresent cfg.Define := by
  induction reqs with
  | nil =>
    intro c _ out hout
    simp [runBuilds] at hout
  | cons o os ih =>
    intro c hinv out hout cfg h
    obtain ⟨h1, h2⟩ := Build_inv w c o hinv
    simp only [runBuilds, List.mem_cons] at hout
    rcases hout with hout | hout
    · subst hout
      exact h2 cfg h
    · exact ih _ h1 out hout cfg h

/-- C8: along every sequence of build requests that starts from the empty cache,
in any environment and for any blobs, every definitions map handed to the engine
contains the key `process.env.NODE_ENV` and the key `proscenium.env`, and
`proscenium.env` maps to `undefined`. -/
theorem runBuilds_sentinels (w : World) (reqs : List BuildOptions) (out : BuildOutput)
    (cfg : EsbuildOptions) (hout : out ∈ runBuilds w [] reqs)
    (hcall : out.engineCall = some cfg) :
    (∃ v, mapGet cfg.Define "process.env.NODE_ENV" = some v) ∧
      mapGet cfg.Define "proscenium.env" = some "undefined" :=
  runBuilds_inv w reqs [] (Or.inl rfl) out hout cfg hcall

theorem runBuilds_sentinels_witness :
    Build (sampleWorld ⟨"development"⟩)
          (Build (sampleWorld ⟨"development"⟩) [] (sampleRequest "lib/foo.js" sampleBlob)).envVarMap
          (sampleRequest "lib/bar.js" "") ∈
        runBuilds (sampleWorld ⟨"development"⟩) []
          [sampleRequest "lib/foo.js" sampleBlob, sampleRequest "lib/bar.js" ""] ∧
      (Build (sampleWorld ⟨"development"⟩)
          (Build (sampleWorld ⟨"development"⟩) [] (sampleRequest "lib/foo.js" sampleBlob)).envVarMap
          (sampleRequest "lib/bar.js" "")).engineCall = some sampleSecondConfig ∧
      (∃ v, mapGet sampleSecondConfig.Define "process.env.NODE_ENV" = some v) ∧
      mapGet sampleSecondConfig.Define "proscenium.env" = some "undefined" :=
  ⟨by simp [runBuilds], rfl,
    runBuilds_sentinels (sampleWorld ⟨"development"⟩)
      [sampleRequest "lib/foo.js" sampleBlob, sampleRequest "lib/bar.js" ""]
      (Build (sampleWorld ⟨"development"⟩)
        (Build (sampleWorld ⟨"development"⟩) [] (sampleRequest "lib/foo.js" sampleBlob)).envVarMap
        (sampleRequest "lib/bar.js" ""))
      sampleSecondConfig (by simp [runBuilds]) rfl⟩

end Proscenium
